import Mathlib

/-!
Verification of the log-monitor program (src/log_monitor.py): a shallow
embedding of its content-cleaning/filtering pipeline, configuration
clamping, truncation detection, poll loop and lifecycle, with theorems
checking the design document's claims against the code.

Text is modelled as `List Char`; machine file sizes and byte counts as
`Nat`; the float-valued configuration parameters as `ℚ`; fallible
operating-system calls as `Option` inputs.
-/

namespace LogMon

/-! ### Content processor: `LogProcessor.clean` (src/log_monitor.py lines 292-296)

The corruption-repair table `_CHAR_FIX_MAP` (lines 270-274) maps
"mainEx" to "main", "Server threadEx" to "Server thread" and
"Worker-Main-Ex" to "Worker-Main-".  `clean` first substitutes every
occurrence in a single left-to-right pass of the combined pattern
(leftmost match; the three corrupted tokens begin with distinct
characters, so at most one of them can match at any position), then, when
`filter_ansi` is set, deletes every match of the ANSI escape pattern
`ESC ([@-Z\\-_] | CSI params intermediates final)` in a single
left-to-right pass. -/

/-- The corrupted token "mainEx" of `_CHAR_FIX_MAP`. -/
def tokenMainEx : List Char := ['m', 'a', 'i', 'n', 'E', 'x']

/-- Its replacement "main". -/
def fixMainEx : List Char := ['m', 'a', 'i', 'n']

/-- The corrupted token "Server threadEx" of `_CHAR_FIX_MAP`. -/
def tokenServerThreadEx : List Char :=
  ['S', 'e', 'r', 'v', 'e', 'r', ' ', 't', 'h', 'r', 'e', 'a', 'd', 'E', 'x']

/-- Its replacement "Server thread". -/
def fixServerThreadEx : List Char :=
  ['S', 'e', 'r', 'v', 'e', 'r', ' ', 't', 'h', 'r', 'e', 'a', 'd']

/-- The corrupted token "Worker-Main-Ex" of `_CHAR_FIX_MAP`. -/
def tokenWorkerMainEx : List Char :=
  ['W', 'o', 'r', 'k', 'e', 'r', '-', 'M', 'a', 'i', 'n', '-', 'E', 'x']

/-- Its replacement "Worker-Main-". -/
def fixWorkerMainEx : List Char :=
  ['W', 'o', 'r', 'k', 'e', 'r', '-', 'M', 'a', 'i', 'n', '-']

/-- The single left-to-right substitution pass of
`self.char_fix_pattern.sub(...)` over `_CHAR_FIX_MAP`: at each position
the engine tries the corrupted tokens in table order (they begin with
distinct characters, so at most one can match at a position); on a match
it emits the replacement and resumes after the matched token, otherwise
it keeps the character and moves one position right.  The fuel argument
only bounds the recursion: each step consumes at least one character, so
fuel `s.length` (as passed by `charFix`) is never exhausted. -/
def charFixFuel : Nat → List Char → List Char
  | 0, s => s
  | _ + 1, [] => []
  | fuel + 1, c :: rest =>
    if tokenMainEx.isPrefixOf (c :: rest) then
      fixMainEx ++ charFixFuel fuel ((c :: rest).drop tokenMainEx.length)
    else if tokenServerThreadEx.isPrefixOf (c :: rest) then
      fixServerThreadEx ++ charFixFuel fuel ((c :: rest).drop tokenServerThreadEx.length)
    else if tokenWorkerMainEx.isPrefixOf (c :: rest) then
      fixWorkerMainEx ++ charFixFuel fuel ((c :: rest).drop tokenWorkerMainEx.length)
    else c :: charFixFuel fuel rest

/-- `self.char_fix_pattern.sub(lambda m: _CHAR_FIX_MAP[m.group()], content)`. -/
def charFix (s : List Char) : List Char := charFixFuel s.length s

/-- The escape character `\x1B` that begins every match of `ansi_pattern`. -/
def escChar : Char := Char.ofNat 27

/-- The character class `[@-Z\\-_]` of the two-character escape form. -/
def isEscTwoCharFinal (c : Char) : Bool :=
  (0x40 ≤ c.toNat && c.toNat ≤ 0x5A) || (0x5C ≤ c.toNat && c.toNat ≤ 0x5F)

/-- The CSI parameter class `[0-?]`. -/
def isCsiParam (c : Char) : Bool := 0x30 ≤ c.toNat && c.toNat ≤ 0x3F

/-- The CSI intermediate class (space through slash, 0x20 to 0x2F). -/
def isCsiInter (c : Char) : Bool := 0x20 ≤ c.toNat && c.toNat ≤ 0x2F

/-- The CSI final-byte class `[@-~]`. -/
def isCsiFinal (c : Char) : Bool := 0x40 ≤ c.toNat && c.toNat ≤ 0x7E

/-- Matches the regex alternative: a literal bracket, a run of parameter
bytes `[0-?]`, a run of intermediate bytes (0x20 to 0x2F), one final byte
`[@-~]`, against the characters following an ESC; the three classes are
pairwise disjoint, so the greedy runs are the only possible split and
`some rest` returns what follows the matched sequence. -/
def matchCsi : List Char → Option (List Char)
  | '[' :: rest =>
    match (rest.dropWhile isCsiParam).dropWhile isCsiInter with
    | c :: rest2 => if isCsiFinal c then some rest2 else none
    | [] => none
  | _ => none

/-- Matches what `ansi_pattern` requires after an ESC: either one byte of
the class `[@-Z\\-_]` or a full CSI sequence; `'['` is not in the first
class, so the alternatives are disjoint. -/
def matchAnsi : List Char → Option (List Char)
  | [] => none
  | c :: rest => if isEscTwoCharFinal c then some rest else matchCsi (c :: rest)

/-- The single left-to-right deletion pass of `self.ansi_pattern.sub('', ...)`:
at an ESC whose tail matches the escape grammar the whole match is dropped
and scanning resumes after it; otherwise the character is kept and scanning
moves one position right.  The fuel argument only bounds the recursion: each
step consumes at least one character and a match never lengthens the tail,
so fuel `s.length` (as passed by `ansiStrip`) is never exhausted. -/
def ansiStripFuel : Nat → List Char → List Char
  | 0, s => s
  | _ + 1, [] => []
  | fuel + 1, c :: rest =>
    if c = escChar then
      match matchAnsi rest with
      | some rest2 => ansiStripFuel fuel rest2
      | none => c :: ansiStripFuel fuel rest
    else c :: ansiStripFuel fuel rest

/-- `ansi_pattern.sub('', content)`. -/
def ansiStrip (s : List Char) : List Char := ansiStripFuel s.length s

/-- `LogProcessor.clean` (lines 292-296): corruption repair first, then
ANSI stripping when `filter_ansi` is enabled. -/
def clean (filterAnsi : Bool) (content : List Char) : List Char :=
  let fixed := charFix content
  if filterAnsi then ansiStrip fixed else fixed

/-! ### Content processor: `LogProcessor.filter` (lines 298-302) -/

/-- Python's substring test `kw in content`: `kw` occurs (contiguously) in
`content`. -/
def occursIn (kw : List Char) : List Char → Bool
  | [] => kw.isEmpty
  | c :: rest => kw.isPrefixOf (c :: rest) || occursIn kw rest

/-- `LogProcessor.filter`: the loop over `exclude_keywords` returns
`False` on the first excluded keyword found in the content; otherwise
`any(kw in content for kw in include_keywords) if include_keywords else True`. -/
def filterContent (excludeKws includeKws : List (List Char)) (content : List Char) : Bool :=
  if excludeKws.any (fun kw => occursIn kw content) then false
  else if includeKws.isEmpty then true
  else includeKws.any fun kw => occursIn kw content

theorem occursIn_eq_true_iff (kw l : List Char) : occursIn kw l = true ↔ kw <:+: l := by
  induction l with
  | nil =>
    simp [occursIn, List.isEmpty_iff]
  | cons c rest ih =>
    simp [occursIn, List.infix_cons_iff, ih]

theorem occursIn_eq_false_iff (kw l : List Char) : occursIn kw l = false ↔ ¬ kw <:+: l := by
  rw [← occursIn_eq_true_iff]
  cases occursIn kw l <;> simp

/-- Claim C1: `filter(text)` returns false if the text contains at least one
exclude keyword as a literal substring (even if it also contains an include
keyword); otherwise it returns true if and only if the include-keyword set
is empty or the text contains at least one include keyword as a literal
case-sensitive substring. -/
theorem filter_exclude_wins_then_include (excludeKws includeKws : List (List Char))
    (content : List Char) :
    ((∃ kw ∈ excludeKws, kw <:+: content) →
        filterContent excludeKws includeKws content = false)
    ∧ ((∀ kw ∈ excludeKws, ¬ kw <:+: content) →
        (filterContent excludeKws includeKws content = true ↔
          includeKws = [] ∨ ∃ kw ∈ includeKws, kw <:+: content)) := by
  constructor
  · rintro ⟨kw, hmem, hinf⟩
    have hany : excludeKws.any (fun kw => occursIn kw content) = true :=
      List.any_eq_true.mpr ⟨kw, hmem, (occursIn_eq_true_iff kw content).mpr hinf⟩
    simp [filterContent, hany]
  · intro hno
    have hany : excludeKws.any (fun kw => occursIn kw content) = false := by
      rw [List.any_eq_false]
      intro kw hk
      rw [occursIn_eq_true_iff]
      exact hno kw hk
    rcases hinc : includeKws with _ | ⟨k0, ks⟩
    · simp [filterContent, hany]
    · simp only [filterContent, hany, Bool.false_eq_true, if_false, List.isEmpty_cons,
        if_neg Bool.false_ne_true]
      rw [List.any_eq_true]
      simp [occursIn_eq_true_iff]

/-- Concrete instance of claim C1's theorem: text "a DEBUGb" with exclude
keyword "DEBUG" and include keyword "INFO" is rejected, and with no
exclude match the include clause decides. -/
theorem filter_exclude_wins_then_include_witness :
    filterContent [['D', 'E', 'B', 'U', 'G']] [['I', 'N', 'F', 'O']]
      ['a', ' ', 'D', 'E', 'B', 'U', 'G', 'b'] = false ∧
    filterContent [['D', 'E', 'B', 'U', 'G']] [['I', 'N', 'F', 'O']]
      ['a', 'I', 'N', 'F', 'O'] = true := by
  constructor
  · exact (filter_exclude_wins_then_include _ _ _).1
      ⟨['D', 'E', 'B', 'U', 'G'], by decide, by decide⟩
  · exact ((filter_exclude_wins_then_include _ _ _).2 (by decide)).mpr
      (Or.inr ⟨['I', 'N', 'F', 'O'], by decide, by decide⟩)

/-! ### Config validation (`ConfigManager._validate_and_load_params`, lines 234-266)

Each raw value below is what `_get_param` produced: the parsed
configuration value when present and well-typed, the default otherwise.
Python float parameters are modelled as `ℚ`, int parameters as `ℤ`. -/

/-- `max(1.0, min(raw, 30.0))` for `wait_interval`. -/
def wait_interval (raw : ℚ) : ℚ := max 1 (min raw 30)

/-- `max(4096, min(raw, 131072))` for `chunk_size`. -/
def chunk_size (raw : ℤ) : ℤ := max 4096 (min raw 131072)

/-- `max(0.1, min(raw_ms / 1000, 5.0))` for `interval`: the millisecond
setting divided by 1000, clamped. -/
def interval (rawMs : ℚ) : ℚ := max (1 / 10) (min (rawMs / 1000) 5)

/-- `max(128, min(raw, 4096))` for `truncate_sensitivity`. -/
def truncate_sensitivity (raw : ℤ) : ℤ := max 128 (min raw 4096)

/-- `max(0, min(raw, 10))` for `auto_close_delay`. -/
def auto_close_delay (raw : ℤ) : ℤ := max 0 (min raw 10)

/-- The whitespace set Python `str.strip()` removes (the code points of
CPython's `Py_UNICODE_ISSPACE`): 0x09 to 0x0D, 0x1C to 0x1F, the space
0x20, next line 0x85, no-break space 0xA0, ogham space mark 0x1680, the
typographic spaces 0x2000 to 0x200A, line separator 0x2028, paragraph
separator 0x2029, narrow no-break space 0x202F, medium mathematical
space 0x205F and ideographic space 0x3000. -/
def isSpaceChar (c : Char) : Bool :=
  (0x09 ≤ c.toNat && c.toNat ≤ 0x0D) ||
  (0x1C ≤ c.toNat && c.toNat ≤ 0x1F) ||
  c.toNat = 0x20 || c.toNat = 0x85 || c.toNat = 0xA0 || c.toNat = 0x1680 ||
  (0x2000 ≤ c.toNat && c.toNat ≤ 0x200A) ||
  c.toNat = 0x2028 || c.toNat = 0x2029 || c.toNat = 0x202F ||
  c.toNat = 0x205F || c.toNat = 0x3000

/-- Python `str.strip()`: drop whitespace from both ends. -/
def stripChars (s : List Char) : List Char :=
  ((s.dropWhile isSpaceChar).reverse.dropWhile isSpaceChar).reverse

/-- Python `str.split(",")`: split on every comma, keeping empty pieces
(so `"".split(",")` is `[""]`). -/
def splitOnComma : List Char → List (List Char)
  | [] => [[]]
  | c :: rest =>
    if c = ',' then [] :: splitOnComma rest
    else
      match splitOnComma rest with
      | [] => [[c]]
      | g :: gs => (c :: g) :: gs

/-- Derivation of `include_keywords` and `exclude_keywords` from a raw
comma-separated string (lines 257-262):
`list(set([k.strip() for k in raw.split(",") if k.strip()]))`. -/
def parseKeywordList (raw : List Char) : List (List Char) :=
  (((splitOnComma raw).map stripChars).filter (fun k => !k.isEmpty)).dedup

theorem stripChars_eq_rdropWhile (s : List Char) :
    stripChars s = (s.dropWhile isSpaceChar).rdropWhile isSpaceChar := rfl

theorem dropWhile_stripChars (s : List Char) :
    (stripChars s).dropWhile isSpaceChar = stripChars s := by
  rw [stripChars_eq_rdropWhile]
  rcases hv : (s.dropWhile isSpaceChar).rdropWhile isSpaceChar with _ | ⟨c, t⟩
  · simp
  · have hpre : (s.dropWhile isSpaceChar).rdropWhile isSpaceChar <+: s.dropWhile isSpaceChar :=
      List.rdropWhile_prefix _ _
    rw [hv] at hpre
    obtain ⟨t2, ht2⟩ := hpre
    have hhead := List.head?_dropWhile_not isSpaceChar s
    rw [← ht2] at hhead
    simp only [List.cons_append, List.head?_cons] at hhead
    exact List.dropWhile_cons_of_neg (by simp [hhead])

theorem stripChars_idem (s : List Char) : stripChars (stripChars s) = stripChars s := by
  conv_lhs => rw [stripChars_eq_rdropWhile, dropWhile_stripChars,
    stripChars_eq_rdropWhile, List.rdropWhile_idempotent]
  rw [stripChars_eq_rdropWhile]

/-- Claim C7: for every raw configuration input (defaults already applied
by `_get_param` for out-of-range, non-numeric, or missing values), each
derived clamped parameter lies within its documented closed interval:
`wait_interval` in [1, 30] seconds, `chunk_size` in [4096, 131072] bytes,
`interval` equal to the millisecond setting divided by 1000 then clamped
to [0.1, 5.0] seconds, `truncate_sensitivity` in [128, 4096] bytes and
`auto_close_delay` in [0, 10] seconds. -/
theorem clamped_params_within_documented_intervals
    (rawWait rawMs : ℚ) (rawChunk rawSens rawDelay : ℤ) :
    (1 ≤ wait_interval rawWait ∧ wait_interval rawWait ≤ 30)
    ∧ (4096 ≤ chunk_size rawChunk ∧ chunk_size rawChunk ≤ 131072)
    ∧ (1 / 10 ≤ interval rawMs ∧ interval rawMs ≤ 5)
    ∧ (128 ≤ truncate_sensitivity rawSens ∧ truncate_sensitivity rawSens ≤ 4096)
    ∧ (0 ≤ auto_close_delay rawDelay ∧ auto_close_delay rawDelay ≤ 10) :=
  ⟨⟨le_max_left _ _, max_le (by norm_num) (min_le_right _ _)⟩,
   ⟨le_max_left _ _, max_le (by norm_num) (min_le_right _ _)⟩,
   ⟨le_max_left _ _, max_le (by norm_num) (min_le_right _ _)⟩,
   ⟨le_max_left _ _, max_le (by norm_num) (min_le_right _ _)⟩,
   ⟨le_max_left _ _, max_le (by norm_num) (min_le_right _ _)⟩⟩

/-- Concrete instance of claim C7's theorem: out-of-range raw inputs land
inside the documented intervals. -/
theorem clamped_params_within_documented_intervals_witness :
    (1 ≤ wait_interval 1000 ∧ wait_interval 1000 ≤ 30)
    ∧ (4096 ≤ chunk_size (-7) ∧ chunk_size (-7) ≤ 131072)
    ∧ (1 / 10 ≤ interval 0 ∧ interval 0 ≤ 5)
    ∧ (128 ≤ truncate_sensitivity 999999 ∧ truncate_sensitivity 999999 ≤ 4096)
    ∧ (0 ≤ auto_close_delay (-3) ∧ auto_close_delay (-3) ≤ 10) :=
  clamped_params_within_documented_intervals 1000 0 (-7) 999999 (-3)

/-- Claim C10: for every raw comma-separated keyword string, the derived
keyword list contains only keywords with leading and trailing whitespace
stripped, contains no empty or whitespace-only entries, and contains no
duplicates. -/
theorem keyword_list_stripped_nonempty_nodup (raw : List Char) :
    (parseKeywordList raw).Nodup
    ∧ ∀ k ∈ parseKeywordList raw, k ≠ [] ∧ stripChars k = k := by
  refine ⟨List.nodup_dedup _, ?_⟩
  intro k hk
  rw [parseKeywordList, List.mem_dedup, List.mem_filter] at hk
  obtain ⟨hmem, hne⟩ := hk
  obtain ⟨j, _, rfl⟩ := List.mem_map.mp hmem
  refine ⟨?_, stripChars_idem j⟩
  simpa using hne

/-- Concrete instance of claim C10's theorem on a raw string with an
entry padded by no-break spaces (0xA0), a piece holding only the file
separator 0x1C, an empty piece and a duplicate: the derived list has no
duplicates and the entry "a" is non-empty and already stripped. -/
theorem keyword_list_stripped_nonempty_nodup_witness :
    (parseKeywordList [Char.ofNat 0xA0, 'a', Char.ofNat 0xA0, ',', Char.ofNat 0x1C,
      ',', ' ', 'b', ',', ',', 'a']).Nodup
    ∧ (['a'] ≠ [] ∧ stripChars ['a'] = ['a']) :=
  ⟨(keyword_list_stripped_nonempty_nodup _).1,
   (keyword_list_stripped_nonempty_nodup
      [Char.ofNat 0xA0, 'a', Char.ofNat 0xA0, ',', Char.ofNat 0x1C,
       ',', ' ', 'b', ',', ',', 'a']).2 ['a'] (by decide)⟩

/-! ### Monitor engine state (`LogMonitor`, lines 311-475)

`MonState` collects the mutable fields of `LogMonitor`: `_is_running`,
whether `_file` holds an open handle, `_last_file_size` and the `_stats`
counters, plus two counters for externally visible effects the theorems
speak about: how many times `_print_stats` was invoked and how many
actual handle closes were attempted.  Fallible `stat()` calls are
modelled as an `Option Nat` input: `some size` on success, `none` when
the call raises. -/

structure MonState where
  is_running : Bool
  fileOpen : Bool
  last_file_size : Nat
  logs : Nat
  bytes : Nat
  truncates : Nat
  errors : Nat
  statsCalls : Nat
  closeAttempts : Nat
deriving DecidableEq, Repr

/-- The state built by `LogMonitor.__init__` (lines 321-327): not running,
no handle, size baseline 0, all counters 0. -/
def initMonState : MonState :=
  { is_running := false, fileOpen := false, last_file_size := 0, logs := 0,
    bytes := 0, truncates := 0, errors := 0, statsCalls := 0, closeAttempts := 0 }

/-- `LogMonitor._detect_truncate` (lines 390-404): on a successful size
check, truncation is declared exactly when the size shrank by at least
`truncate_sensitivity`; `_last_file_size` is set to the current size on
both outcomes.  A failing size check counts an error and reports no
truncation, leaving the baseline unchanged. -/
def detect_truncate (sensitivity : Nat) (statSize : Option Nat) (s : MonState) :
    Bool × MonState :=
  match statSize with
  | none => (false, { s with errors := s.errors + 1 })
  | some current =>
    let size_diff := ((current : ℤ) - (s.last_file_size : ℤ)).natAbs
    if current < s.last_file_size ∧ sensitivity ≤ size_diff then
      (true, { s with truncates := s.truncates + 1, last_file_size := current })
    else
      (false, { s with last_file_size := current })

/-- `_detect_truncate` applied to a sequence of observed sizes, returning
the reported truncation flags in order. -/
def runDetect (sensitivity : Nat) (s : MonState) : List (Option Nat) → List Bool
  | [] => []
  | o :: rest =>
    let r := detect_truncate sensitivity o s
    r.1 :: runDetect sensitivity r.2 rest

/-- Claim C2: `detect_truncate`, observing file size `current` with
baseline `last_file_size`, returns true if and only if
`current < last_file_size` and the absolute difference is at least the
sensitivity (never on growth or a small shrink); on every successful size
check it updates the baseline to `current` regardless of outcome; and for
the size sequence [1000, 1000, 200] with sensitivity 500 it reports
truncation exactly once, at the third observation. -/
theorem detect_truncate_shrink_iff_updates_baseline :
    (∀ (sens current : Nat) (s : MonState),
        (detect_truncate sens (some current) s).1 = true ↔
          current < s.last_file_size ∧
            sens ≤ ((current : ℤ) - (s.last_file_size : ℤ)).natAbs)
    ∧ (∀ (sens current : Nat) (s : MonState),
        (detect_truncate sens (some current) s).2.last_file_size = current)
    ∧ runDetect 500 { initMonState with last_file_size := 1000 }
        [some 1000, some 1000, some 200] = [false, false, true] := by
  refine ⟨?_, ?_, by decide⟩
  · intro sens current s
    simp only [detect_truncate]
    split
    · rename_i h
      simp [h]
    · rename_i h
      simp [h]
  · intro sens current s
    simp only [detect_truncate]
    split <;> rfl

/-- Concrete instance of claim C2's theorem: a drop from 1000 to 200
with sensitivity 500 is reported as truncation. -/
theorem detect_truncate_shrink_iff_updates_baseline_witness :
    (detect_truncate 500 (some 200) { initMonState with last_file_size := 1000 }).1 = true :=
  (detect_truncate_shrink_iff_updates_baseline.1 500 200
    { initMonState with last_file_size := 1000 }).mpr (by decide)

/-- `LogMonitor._close_file` (lines 380-388): when a handle is open an
actual close is attempted (counted in `closeAttempts`); a close failure
is printed and added to the error counter, never propagated; in every
case `_file` ends as None. -/
def close_file (closeFails : Bool) (s : MonState) : MonState :=
  if s.fileOpen then
    if closeFails then
      { s with fileOpen := false, closeAttempts := s.closeAttempts + 1,
               errors := s.errors + 1 }
    else
      { s with fileOpen := false, closeAttempts := s.closeAttempts + 1 }
  else { s with fileOpen := false }

/-- `LogMonitor.stop` (lines 461-475): a no-op when the monitor is not
running; otherwise it sets `_is_running = False`, closes the handle,
invokes `_print_stats` once (counted in `statsCalls`; the body prints
only when `show_stats` is set), waits the auto-close delay and reaches
`sys.exit(0)`.  The returned flag records whether `sys.exit(0)` was
reached. -/
def stop (closeFails : Bool) (s : MonState) : MonState × Bool :=
  if s.is_running then
    let s1 := close_file closeFails { s with is_running := false }
    ({ s1 with statsCalls := s1.statsCalls + 1 }, true)
  else (s, false)

/-- Claim C8: `stop()` is idempotent: a second call while the monitor is
already stopped is a no-op, so calling stop twice produces exactly one
statistics report and at most one handle close (no double-close error). -/
theorem stop_idempotent (closeFails : Bool) (s : MonState) (h : s.is_running = true) :
    (stop closeFails (stop closeFails s).1).1 = (stop closeFails s).1
    ∧ (stop closeFails (stop closeFails s).1).2 = false
    ∧ (stop closeFails (stop closeFails s).1).1.statsCalls = s.statsCalls + 1
    ∧ (stop closeFails (stop closeFails s).1).1.closeAttempts ≤ s.closeAttempts + 1 := by
  simp only [stop, close_file, h, if_true]
  by_cases hf : s.fileOpen <;> by_cases hc : closeFails <;>
    simp [hf, hc]

/-- A running monitor with an open handle, as after a successful
`_validate_file` and `_open_file`. -/
def runningOpenState : MonState :=
  { initMonState with is_running := true, fileOpen := true }

/-- Concrete instance of claim C8's theorem: stopping twice from a running
state with an open handle reports statistics once and closes once. -/
theorem stop_idempotent_witness :
    runningOpenState.is_running = true
    ∧ ((stop false (stop false runningOpenState).1).1 = (stop false runningOpenState).1
      ∧ (stop false (stop false runningOpenState).1).2 = false
      ∧ (stop false (stop false runningOpenState).1).1.statsCalls
          = runningOpenState.statsCalls + 1
      ∧ (stop false (stop false runningOpenState).1).1.closeAttempts
          ≤ runningOpenState.closeAttempts + 1) :=
  ⟨rfl, stop_idempotent false runningOpenState rfl⟩

/-! ### Exit codes (`LogMonitor.start` lines 428-459, `main` lines 479-491) -/

/-- The unrecoverable startup failures: `_validate_file` raises
`FileNotFoundError` (file missing, waiting disabled), `IsADirectoryError`
(not a regular file) or `PermissionError` (unreadable); `_open_file`
raises `RuntimeError` on an open failure. All are raised before
`_is_running = True`. -/
inductive StartupFailure where
  | fileNotFound
  | notARegularFile
  | permissionDenied
  | openFailure
deriving DecidableEq, Repr

/-- How a run of `LogMonitor.start` came to an end. -/
inductive RunOutcome where
  | startupFailure (e : StartupFailure)
  | runtimeFailure
  | gracefulStop
deriving DecidableEq, Repr

/-- `LogMonitor.start` (lines 428-459): the final state together with
`some code` when the run raised `SystemExit code` (`sys.exit`; not caught
by `except Exception`), or `none` when `start` returned normally.
- A startup failure is raised before `_is_running = True`; the `except`
  block prints and counts it; `finally` calls `stop()`, which returns
  immediately because the monitor never ran — so `start` returns normally.
- An exception inside the poll loop (after `_is_running = True`) is caught
  and counted; `finally`'s `stop()` performs the shutdown and exits 0.
- On a graceful stop, `stop()` raises `SystemExit(0)` while the loop runs;
  `finally` calls `stop()` a second time, a no-op. -/
def start (closeFails : Bool) (outcome : RunOutcome) (s : MonState) : MonState × Option Nat :=
  match outcome with
  | .startupFailure _ =>
    let r := stop closeFails { s with errors := s.errors + 1 }
    (r.1, if r.2 then some 0 else none)
  | .runtimeFailure =>
    let r := stop closeFails { s with is_running := true, errors := s.errors + 1 }
    (r.1, if r.2 then some 0 else none)
  | .gracefulStop =>
    let r := stop closeFails { s with is_running := true }
    let r2 := stop closeFails r.1
    (r2.1, if r.2 then some 0 else none)

/-- `main` (lines 479-491): a failure while constructing `LogMonitor`
(configuration loading) is caught and turned into `sys.exit(1)`;
`SystemExit` raised inside `start` is not an `Exception`, so it
propagates and sets the process exit code; when `start` returns normally
the interpreter exits 0. `start` begins from the constructor's state. -/
def main_exit_code (initFails closeFails : Bool) (outcome : RunOutcome) : Nat :=
  if initFails then 1
  else
    match (start closeFails outcome initMonState).2 with
    | some code => code
    | none => 0

/-- Counterexample to claim C3: with the file missing and waiting
disabled, `start` catches the `FileNotFoundError`, `stop()` is a no-op
because the monitor never ran, `start` returns normally, and the process
exits with code 0 — not a non-zero code. -/
theorem exit_code_startup_failure_counterexample :
    main_exit_code false false (RunOutcome.startupFailure StartupFailure.fileNotFound) = 0 := by
  decide

/-- Claim C3 as amended: the process exits 0 on a graceful stop; every
unrecoverable startup failure inside `start` (file missing with waiting
disabled, not a regular file, permission denied, open failure) is
swallowed — `stop()` is a no-op since the monitor never ran — and the
process also exits 0; exit code 1 is produced only when constructing the
monitor (configuration loading) fails. -/
theorem exit_codes_graceful_zero_startup_zero_init_one :
    (∀ closeFails, main_exit_code false closeFails RunOutcome.gracefulStop = 0)
    ∧ (∀ closeFails e, main_exit_code false closeFails (RunOutcome.startupFailure e) = 0)
    ∧ (∀ closeFails outcome, main_exit_code true closeFails outcome = 1) :=
  ⟨fun _ => rfl, fun _ _ => rfl, fun _ _ => rfl⟩

/-! ### The poll loop body (`LogMonitor.start`, lines 440-454) -/

inductive LoopEvent where
  | reopenFull
  | readChunk
  | emit
  | sleep
deriving DecidableEq, Repr

/-- One iteration of the `while self._is_running` loop, as the sequence
of its externally visible actions.  When `_detect_truncate()` returned
true and `read_full_on_truncate` is set, the file is reopened with full
replay and `continue` jumps back to the loop head.  Otherwise, when a
handle is open, one bounded chunk is read; a non-empty chunk is cleaned,
filtered and printed when it passes; then the iteration reaches
`time.sleep(interval)`. -/
def pollCycle (includeKws excludeKws : List (List Char)) (filterAnsi : Bool)
    (truncateDetected readFullOnTruncate fileIsOpen : Bool) (newContent : List Char) :
    List LoopEvent :=
  if truncateDetected && readFullOnTruncate then [LoopEvent.reopenFull]
  else
    (if fileIsOpen then
      if newContent.isEmpty then [LoopEvent.readChunk]
      else if filterContent excludeKws includeKws (clean filterAnsi newContent) then
        [LoopEvent.readChunk, LoopEvent.emit]
      else [LoopEvent.readChunk]
    else []) ++ [LoopEvent.sleep]

/-- Counterexample to claim C4: an iteration that detects a truncation
with `read_full_on_truncate` set executes `continue` after the reopen and
never reaches the sleep, so not every iteration ends with a sleep. -/
theorem poll_cycle_truncation_skips_sleep_counterexample :
    (pollCycle [] [] false true true true []).getLast? ≠ some LoopEvent.sleep := by
  decide

/-- Claim C4 as amended: an iteration of the poll loop ends with a sleep
of `poll_interval` seconds — regardless of whether data was read — if
and only if it is not an iteration that detected a truncation with
`read_full_on_truncate` set; such an iteration reopens with full replay
and continues to the next cycle immediately, skipping the sleep. -/
theorem poll_cycle_ends_with_sleep_iff_no_truncation_reopen
    (includeKws excludeKws : List (List Char)) (filterAnsi : Bool)
    (truncateDetected readFullOnTruncate fileIsOpen : Bool) (newContent : List Char) :
    (pollCycle includeKws excludeKws filterAnsi truncateDetected readFullOnTruncate
        fileIsOpen newContent).getLast? = some LoopEvent.sleep
      ↔ ¬(truncateDetected = true ∧ readFullOnTruncate = true) := by
  by_cases h : truncateDetected = true ∧ readFullOnTruncate = true
  · obtain ⟨h1, h2⟩ := h
    subst h1
    subst h2
    simp [pollCycle]
  · have hb : (truncateDetected && readFullOnTruncate) = false := by
      cases truncateDetected <;> cases readFullOnTruncate <;> simp_all
    simp only [pollCycle, hb, Bool.false_eq_true, if_false]
    rw [List.getLast?_concat]
    simpa using h

/-! ### Open with full replay (`LogMonitor._open_file`, lines 350-378) -/

/-- `self._file.read(n)` on a handle at position `pos` of a file whose
contents are `file`: the next at-most-`n` characters. -/
def fileRead (file : List Char) (pos n : Nat) : List Char := (file.drop pos).take n

/-- The `while chunk := self._file.read(self.params["chunk_size"])` loop
of `_open_file(read_full=True)`: the successive non-empty chunks (each is
cleaned, filtered and printed in turn, and added to the statistics) and
the cursor position the loop ends at. -/
def readFullLoop (file : List Char) (chunkSize pos : Nat) : List (List Char) × Nat :=
  let chunk := fileRead file pos chunkSize
  if h : chunk.isEmpty then ([], pos)
  else
    let r := readFullLoop file chunkSize (pos + chunk.length)
    (chunk :: r.1, r.2)
termination_by file.length - pos
decreasing_by
  simp only [List.isEmpty_iff] at h
  have h1 : pos < file.length := by
    by_contra hge
    apply h
    show (file.drop pos).take chunkSize = []
    rw [List.drop_eq_nil_of_le (Nat.le_of_not_lt hge), List.take_nil]
  have h2 : 0 < (fileRead file pos chunkSize).length := List.length_pos.mpr h
  simp only [fileRead, List.length_take, List.length_drop] at h2 ⊢
  omega

/-- The observable result of `_open_file`. -/
structure OpenResult where
  emittedChunks : List (List Char)
  cursor : Nat
  last_file_size : Nat
deriving DecidableEq, Repr

/-- `LogMonitor._open_file` (lines 350-378): closes any previous handle,
opens the file, records its current size into `_last_file_size`; with
`read_full=True` it reads and processes the entire current content in
chunks, leaving the cursor where the read loop stopped; with
`read_full=False` it seeks straight to end-of-file. -/
def open_file (file : List Char) (chunkSize : Nat) (read_full : Bool) : OpenResult :=
  if read_full then
    let r := readFullLoop file chunkSize 0
    { emittedChunks := r.1, cursor := r.2, last_file_size := file.length }
  else
    { emittedChunks := [], cursor := file.length, last_file_size := file.length }

theorem take_append_drop_length_take (n : Nat) (l : List Char) :
    l.take n ++ l.drop (l.take n).length = l := by
  rw [List.length_take]
  rcases Nat.le_total n l.length with h | h
  · rw [Nat.min_eq_left h, List.take_append_drop]
  · rw [Nat.min_eq_right h, List.drop_length, List.take_of_length_le h, List.append_nil]

theorem readFullLoop_spec (file : List Char) (chunkSize : Nat) (hcs : 0 < chunkSize) :
    ∀ pos, (readFullLoop file chunkSize pos).1.flatten = file.drop pos
      ∧ (pos ≤ file.length → (readFullLoop file chunkSize pos).2 = file.length) := by
  have key : ∀ (n pos : Nat), file.length - pos ≤ n →
      (readFullLoop file chunkSize pos).1.flatten = file.drop pos
      ∧ (pos ≤ file.length → (readFullLoop file chunkSize pos).2 = file.length) := by
    intro n
    induction n with
    | zero =>
      intro pos hle
      have hge : file.length ≤ pos := by omega
      have hnil : file.drop pos = [] := List.drop_eq_nil_of_le hge
      rw [readFullLoop]
      simp only [fileRead, hnil, List.take_nil, List.isEmpty_nil, dite_true]
      exact ⟨by simp [hnil], fun hple => le_antisymm hple hge⟩
    | succ n ih =>
      intro pos hle
      rw [readFullLoop]
      split
      · rename_i hempty
        simp only [fileRead, List.isEmpty_iff, List.take_eq_nil_iff] at hempty
        have hnil : file.drop pos = [] := by
          rcases hempty with h0 | h0
          · omega
          · exact h0
        exact ⟨by simp [hnil], fun hple =>
          le_antisymm hple (List.drop_eq_nil_iff.mp hnil)⟩
      · rename_i hne
        simp only [List.isEmpty_iff] at hne
        have hpos : pos < file.length := by
          by_contra hge
          exact hne (by simp [fileRead, List.drop_eq_nil_of_le (Nat.le_of_not_lt hge)])
        have hlen1 : 0 < (fileRead file pos chunkSize).length := List.length_pos.mpr hne
        have hlenle : (fileRead file pos chunkSize).length ≤ file.length - pos := by
          simp only [fileRead, List.length_take, List.length_drop]
          omega
        have hrec := ih (pos + (fileRead file pos chunkSize).length) (by omega)
        refine ⟨?_, fun _ => ?_⟩
        · simp only [List.flatten_cons, hrec.1, ← List.drop_drop]
          exact take_append_drop_length_take chunkSize (List.drop pos file)
        · exact hrec.2 (by omega)
  exact fun pos => key (file.length - pos) pos le_rfl

/-- Claim C6: after a truncation with `read_full_on_truncate=true`, the
reopen-with-full-replay pushes every byte currently in the file at reopen
time through the clean-filter-print pipeline exactly once (no
duplication, no gap: the chunks concatenate to exactly the file), and the
read cursor afterward is positioned at end-of-file, so a subsequent read
returns only newly appended bytes. -/
theorem open_file_full_replay_exact (file appended : List Char) (chunkSize : Nat)
    (hcs : 0 < chunkSize) :
    (open_file file chunkSize true).emittedChunks.flatten = file
    ∧ (open_file file chunkSize true).cursor = file.length
    ∧ fileRead (file ++ appended) (open_file file chunkSize true).cursor chunkSize
        = appended.take chunkSize := by
  have h0 := readFullLoop_spec file chunkSize hcs 0
  have hcur : (open_file file chunkSize true).cursor = file.length := by
    simp only [open_file, if_true]
    exact h0.2 (Nat.zero_le _)
  refine ⟨?_, hcur, ?_⟩
  · simp only [open_file, if_true]
    simpa using h0.1
  · rw [hcur]
    simp [fileRead, List.drop_left]

/-- Concrete instance of claim C6's theorem: replaying the three-byte
file "abc" in chunks of 2 emits "ab" then "c" — exactly the file — and
afterwards a read at the cursor sees only the appended "d". -/
theorem open_file_full_replay_exact_witness :
    0 < 2
    ∧ ((open_file ['a', 'b', 'c'] 2 true).emittedChunks.flatten = ['a', 'b', 'c']
      ∧ (open_file ['a', 'b', 'c'] 2 true).cursor = (['a', 'b', 'c'] : List Char).length
      ∧ fileRead (['a', 'b', 'c'] ++ ['d']) (open_file ['a', 'b', 'c'] 2 true).cursor 2
          = (['d'] : List Char).take 2) :=
  ⟨by decide, open_file_full_replay_exact ['a', 'b', 'c'] ['d'] 2 (by decide)⟩

/-! ### Length and idempotence properties of `clean` (claims C9 and C5) -/

theorem matchCsi_length_lt {s t : List Char} (h : matchCsi s = some t) :
    t.length < s.length := by
  unfold matchCsi at h
  split at h
  · rename_i rest
    split at h
    · rename_i c2 rest2 heq
      split at h
      · injection h with h'
        subst h'
        have h1 : ((rest.dropWhile isCsiParam).dropWhile isCsiInter).length
            ≤ (rest.dropWhile isCsiParam).length :=
          (List.dropWhile_suffix _).length_le
        have h2 : (rest.dropWhile isCsiParam).length ≤ rest.length :=
          (List.dropWhile_suffix _).length_le
        rw [heq] at h1
        simp only [List.length_cons] at h1 ⊢
        omega
      · exact absurd h (by simp)
    · exact absurd h (by simp)
  · exact absurd h (by simp)

theorem matchAnsi_length_lt {s t : List Char} (h : matchAnsi s = some t) :
    t.length < s.length := by
  unfold matchAnsi at h
  split at h
  · exact absurd h (by simp)
  · rename_i c rest
    split at h
    · injection h with h'
      subst h'
      simp
    · exact matchCsi_length_lt h

theorem ansiStripFuel_length_le (fuel : Nat) :
    ∀ s : List Char, (ansiStripFuel fuel s).length ≤ s.length := by
  induction fuel with
  | zero => intro s; exact le_rfl
  | succ n ih =>
    intro s
    match s with
    | [] => exact le_rfl
    | c :: rest =>
      simp only [ansiStripFuel]
      split
      · rcases hm : matchAnsi rest with _ | rest2
        · simp only [hm, List.length_cons]
          exact Nat.succ_le_succ (ih rest)
        · simp only [hm]
          have hlt := matchAnsi_length_lt hm
          have hle := ih rest2
          simp only [List.length_cons]
          omega
      · simp only [List.length_cons]
        exact Nat.succ_le_succ (ih rest)

theorem ansiStrip_length_le (s : List Char) : (ansiStrip s).length ≤ s.length :=
  ansiStripFuel_length_le s.length s

theorem charFixFuel_length_le (fuel : Nat) :
    ∀ s : List Char, (charFixFuel fuel s).length ≤ s.length := by
  induction fuel with
  | zero => intro s; exact le_rfl
  | succ n ih =>
    intro s
    match s with
    | [] => exact le_rfl
    | c :: rest =>
      simp only [charFixFuel]
      split
      · rename_i hp
        obtain ⟨t, ht⟩ := List.isPrefixOf_iff_prefix.mp hp
        rw [← ht, List.drop_left]
        have hfix : fixMainEx.length ≤ tokenMainEx.length := by decide
        have hle := ih t
        simp only [List.length_append]
        omega
      · split
        · rename_i hp
          obtain ⟨t, ht⟩ := List.isPrefixOf_iff_prefix.mp hp
          rw [← ht, List.drop_left]
          have hfix : fixServerThreadEx.length ≤ tokenServerThreadEx.length := by decide
          have hle := ih t
          simp only [List.length_append]
          omega
        · split
          · rename_i hp
            obtain ⟨t, ht⟩ := List.isPrefixOf_iff_prefix.mp hp
            rw [← ht, List.drop_left]
            have hfix : fixWorkerMainEx.length ≤ tokenWorkerMainEx.length := by decide
            have hle := ih t
            simp only [List.length_append]
            omega
          · simp only [List.length_cons]
            exact Nat.succ_le_succ (ih rest)

theorem charFix_length_le (s : List Char) : (charFix s).length ≤ s.length :=
  charFixFuel_length_le s.length s

/-- Claim C9: `clean` never lengthens its input: for every input text and
for both settings of `filter_ansi`, the length of `clean(text)` is at
most the length of the text — every corruption-repair replacement is no
longer than the corrupted token it replaces and ANSI stripping only
deletes characters. -/
theorem clean_length_le (filterAnsi : Bool) (content : List Char) :
    (clean filterAnsi content).length ≤ content.length := by
  cases filterAnsi
  · exact charFix_length_le content
  · calc (ansiStrip (charFix content)).length ≤ (charFix content).length :=
        ansiStrip_length_le _
      _ ≤ content.length := charFix_length_le content

/-- Counterexample to claim C5: with `filter_ansi` enabled, cleaning
"mainExEx" yields "mainEx" (repairing the first token recreates a
corrupted token), and cleaning a second time yields "main", so applying
`clean` twice does not equal applying it once. -/
theorem clean_not_idempotent_counterexample :
    clean true (clean true ['m', 'a', 'i', 'n', 'E', 'x', 'E', 'x'])
      ≠ clean true ['m', 'a', 'i', 'n', 'E', 'x', 'E', 'x'] := by decide

theorem charFixFuel_eq_self_of_no_token (fuel : Nat) :
    ∀ s : List Char, ¬ tokenMainEx <:+: s → ¬ tokenServerThreadEx <:+: s →
      ¬ tokenWorkerMainEx <:+: s → charFixFuel fuel s = s := by
  induction fuel with
  | zero => intro s _ _ _; rfl
  | succ n ih =>
    intro s h1 h2 h3
    match s with
    | [] => rfl
    | c :: rest =>
      have hp1 : ¬ tokenMainEx.isPrefixOf (c :: rest) = true := fun hp =>
        h1 (List.isPrefixOf_iff_prefix.mp hp).isInfix
      have hp2 : ¬ tokenServerThreadEx.isPrefixOf (c :: rest) = true := fun hp =>
        h2 (List.isPrefixOf_iff_prefix.mp hp).isInfix
      have hp3 : ¬ tokenWorkerMainEx.isPrefixOf (c :: rest) = true := fun hp =>
        h3 (List.isPrefixOf_iff_prefix.mp hp).isInfix
      simp only [charFixFuel, if_neg hp1, if_neg hp2, if_neg hp3]
      rw [ih rest (fun hi => h1 (List.infix_cons hi)) (fun hi => h2 (List.infix_cons hi))
        (fun hi => h3 (List.infix_cons hi))]

theorem ansiStripFuel_eq_self_of_not_mem (fuel : Nat) :
    ∀ s : List Char, escChar ∉ s → ansiStripFuel fuel s = s := by
  induction fuel with
  | zero => intro s _; rfl
  | succ n ih =>
    intro s hmem
    match s with
    | [] => rfl
    | c :: rest =>
      have hc : ¬ c = escChar := by
        intro hh
        rw [hh] at hmem
        exact hmem (List.mem_cons_self _ _)
      simp only [ansiStripFuel, if_neg hc]
      rw [ih rest fun hm => hmem (List.mem_cons_of_mem c hm)]

/-- Claim C5 as amended: with `filter_ansi` enabled, `clean` is not
idempotent on all inputs — a repair substitution can recreate a corrupted
token, and a first stripping pass can bring an ESC next to characters
that complete an escape sequence; `clean` is idempotent on every input
whose cleaned text contains no corrupted token of `_CHAR_FIX_MAP` as a
substring and no ESC character. -/
theorem clean_idempotent_on_stable_output (x : List Char)
    (h1 : ¬ tokenMainEx <:+: clean true x)
    (h2 : ¬ tokenServerThreadEx <:+: clean true x)
    (h3 : ¬ tokenWorkerMainEx <:+: clean true x)
    (h4 : escChar ∉ clean true x) :
    clean true (clean true x) = clean true x := by
  have hfix : charFix (clean true x) = clean true x :=
    charFixFuel_eq_self_of_no_token (clean true x).length (clean true x) h1 h2 h3
  have hstrip : ansiStrip (clean true x) = clean true x :=
    ansiStripFuel_eq_self_of_not_mem (clean true x).length (clean true x) h4
  show ansiStrip (charFix (clean true x)) = clean true x
  rw [hfix, hstrip]

/-- Concrete instance of claim C5's amended theorem at "mainEx": its
cleaned text "main" contains no corrupted token and no ESC character,
and cleaning a second time changes nothing. -/
theorem clean_idempotent_on_stable_output_witness :
    (¬ tokenMainEx <:+: clean true ['m', 'a', 'i', 'n', 'E', 'x'])
    ∧ (¬ tokenServerThreadEx <:+: clean true ['m', 'a', 'i', 'n', 'E', 'x'])
    ∧ (¬ tokenWorkerMainEx <:+: clean true ['m', 'a', 'i', 'n', 'E', 'x'])
    ∧ escChar ∉ clean true ['m', 'a', 'i', 'n', 'E', 'x']
    ∧ clean true (clean true ['m', 'a', 'i', 'n', 'E', 'x'])
        = clean true ['m', 'a', 'i', 'n', 'E', 'x'] :=
  ⟨by decide, by decide, by decide, by decide,
   clean_idempotent_on_stable_output ['m', 'a', 'i', 'n', 'E', 'x']
     (by decide) (by decide) (by decide) (by decide)⟩

end LogMon
